import Mathlib

/-!
Shallow embedding of the codemcp search tool: a JSON-RPC client driving a
gopls subprocess (request registry, read loop, symbol search) and the hybrid
search orchestrator (local results merged with gopls results, deduplicated,
sorted and truncated).  Definitions are translated from the Go source files
of the repository; Go string primitives are modelled character-wise (ASCII
case folding), which coincides with the byte-wise Go functions on the ASCII
inputs the program manipulates.
-/

namespace CodeMCP

/-- Boolean prefix test on character lists; models the byte-wise
Go function used through this file. -/
def listPrefix : List Char → List Char → Bool
  | [], _ => true
  | _ :: _, [] => false
  | a :: as, b :: bs => a == b && listPrefix as bs

/-- Models Go strings.HasPrefix s pre. -/
def goHasPrefix (s pre : String) : Bool :=
  listPrefix pre.data s.data

/-- Boolean contiguous-substring test on character lists. -/
def listInfix (sub : List Char) : List Char → Bool
  | [] => sub.isEmpty
  | c :: ls => listPrefix sub (c :: ls) || listInfix sub ls

/-- Models Go strings.Contains s sub. -/
def goContains (s sub : String) : Bool :=
  listInfix sub.data s.data

/-- Models Go strings.HasSuffix s suf (a suffix is a reversed prefix). -/
def goHasSuffix (s suf : String) : Bool :=
  listPrefix suf.data.reverse s.data.reverse

/-- Go string equality, character-wise. -/
def goStrEq (a b : String) : Bool :=
  a.data == b.data

/-- Models Go strings.ToLower (ASCII folding; the Go function additionally
folds non-ASCII letters, which do not occur in the program's inputs). -/
def goToLower (s : String) : String :=
  String.mk (s.data.map Char.toLower)

/-- Models Go strings.EqualFold (simple case folding, ASCII fragment). -/
def goEqualFold (a b : String) : Bool :=
  goStrEq (goToLower a) (goToLower b)

/-- Models Go strings.TrimPrefix s pre. -/
def goTrimPrefix (s pre : String) : String :=
  if goHasPrefix s pre then String.mk (s.data.drop pre.data.length) else s

end CodeMCP

namespace CodeMCP

/-- FileScore, from main.go: the relevance of one file to a search query. -/
structure FileScore where
  path : String
  score : Int
  reasons : List String
  isDep : Bool
deriving DecidableEq, Repr

/-- Splits a path on the separator, accumulating the current component in
reverse; models the component view filepath functions operate on. -/
def splitPathAux : List Char → List Char → List (List Char)
  | cur, [] => [cur.reverse]
  | cur, c :: cs => if c == '/' then cur.reverse :: splitPathAux [] cs else splitPathAux (c :: cur) cs

/-- Path components of a slash-separated path string. -/
def splitPath (p : String) : List (List Char) :=
  splitPathAux [] p.data

/-- Relative-path components: drop the common prefix of base and target, then
one parent step per remaining base component followed by the remaining target
components. -/
def goRelElems : List (List Char) → List (List Char) → List (List Char)
  | [], ts => ts
  | bs, [] => List.replicate bs.length ['.', '.']
  | b :: bs, t :: ts =>
    if b == t then goRelElems bs ts
    else List.replicate (b :: bs).length ['.', '.'] ++ (t :: ts)

/-- Models Go filepath.Rel base target for already-clean absolute paths
(the only shape the program passes: the search root and a gopls file path). -/
def goRel (base target : String) : String :=
  let r := goRelElems (splitPath base) (splitPath target)
  if r.isEmpty then String.mk ['.'] else String.mk (List.intercalate ['/'] r)

/-- Models Go filepath.IsAbs on Unix: the path starts with a separator. -/
def goIsAbs (p : String) : Bool :=
  goHasPrefix p (String.mk ['/'])

/-- Models Go filepath.Join root p for a clean root and a clean relative p
(the shapes produced by the program: local results are root-relative). -/
def joinPath (root p : String) : String :=
  root ++ String.mk ['/'] ++ p

/-- Merge comparison key from Search (main.go): a stored path converted to
absolute by joining relative paths against the search root. -/
def existingAbsPath (absRoot : String) (e : FileScore) : String :=
  if goIsAbs e.path then e.path else joinPath absRoot e.path

/-- The per-record rewrite Search applies to a surviving gopls record: if the
search root is a string prefix of the absolute path, the path is rewritten
relative to the root and the record is reclassified as local (IsDep false). -/
def rewriteRemote (absRoot : String) (g : FileScore) : FileScore :=
  if goHasPrefix g.path absRoot then
    { g with path := goRel absRoot g.path, isDep := false }
  else g

/-- The merge loop of Search (main.go): each gopls record is dropped when some
record already in the collection has the same absolute path, otherwise it is
rewritten (when inside the root) and appended. -/
def mergeGopls (absRoot : String) (acc : List FileScore) : List FileScore → List FileScore
  | [] => acc
  | g :: rest =>
    if acc.any (fun ex => goStrEq (existingAbsPath absRoot ex) g.path) then
      mergeGopls absRoot acc rest
    else
      mergeGopls absRoot (acc ++ [rewriteRemote absRoot g]) rest

/-- Spec-side predicate, from the spec's words: an absolute path falls inside
the search root (it is the root itself or lies strictly below it). -/
def insideRoot (root p : String) : Bool :=
  goStrEq p root || goHasPrefix p (root ++ String.mk ['/'])

/-- The pending-request registry of the GoplsClient: which request
identifiers currently have a waiting caller (the Go map from id to its
response channel, modelled by membership). -/
def PendingMap := Int → Bool

/-- The registry of a freshly created client: no pending entry. -/
def emptyPending : PendingMap := fun _ => false

/-- Registering a request id (the map insert in Call). -/
def registerPending (p : PendingMap) (id : Int) : PendingMap :=
  fun k => if k == id then true else p k

/-- Evicting a request id (the map delete on timeout, on write failure, and
on dispatch). -/
def evictPending (p : PendingMap) (id : Int) : PendingMap :=
  fun k => if k == id then false else p k

/-- Reduction of an integer to signed 64-bit wraparound range, the overflow
behaviour of the atomic int64 counter the client allocates ids from. -/
def wrap64 (x : Int) : Int :=
  (x + 9223372036854775808) % 18446744073709551616 - 9223372036854775808

/-- The id allocation in Call: atomic.AddInt64 of 1 on the seq counter,
returning the new value with int64 wraparound. -/
def nextSeq (s : Int) : Int := wrap64 (s + 1)

/-- The value of the seq counter, and hence the id handed to the n-th call,
after n allocations starting from the zero-valued client. -/
def assignedId : Nat → Int
  | 0 => 0
  | n + 1 => nextSeq (assignedId n)

/-- The fixed deadline of Call, in seconds (time.After of 5 seconds). -/
def callTimeoutSeconds : Nat := 5

/-- A raw JSON result payload; the Go json.RawMessage may be nil, modelled by
the none case. -/
abbrev RawResult := Option String

/-- Call on the path where no response ever arrives: the id is allocated and
registered, the request is written, and after the deadline the entry is
evicted and the timeout error is returned.  Yields the allocated id, the
registry afterwards, and the outcome handed to the caller. -/
def callNoResponse (seq : Int) (p : PendingMap) : Int × PendingMap × Except String RawResult :=
  let id := nextSeq seq
  let p1 := registerPending p id
  (id, evictPending p1 id, Except.error ("timeout waiting for gopls response"))

/-- The dispatcher step handleMessage: a body that decodes to a response with
a nonzero id that is pending resolves (and removes) that entry, delivering
the result payload; anything else is dropped with the registry unchanged.
The input none models a body json.Unmarshal rejects; the output's second
component is the payload delivered to a waiting caller, if any. -/
def handleMessage (p : PendingMap) (decoded : Option (Int × RawResult)) :
    PendingMap × Option RawResult :=
  match decoded with
  | none => (p, none)
  | some (id, result) =>
    if id != 0 && p id then (evictPending p id, some result)
    else (p, none)

/-- The parameter payloads the client sends: the initialize request (process
id, rootUri, and the always-empty capabilities object), the empty object of
the initialized notification, and the workspace/symbol query. -/
inductive Params where
  | initCall (processId : Int) (rootUri : String) (capabilities : List (String × String))
  | empty
  | symbolQuery (query : String)
deriving DecidableEq, Repr

/-- An outgoing JSON-RPC message: a request carries an id, a notification
does not. -/
inductive OutMsg where
  | request (id : Int) (method : String) (params : Params)
  | notification (method : String) (params : Params)
deriving DecidableEq, Repr

/-- The outcome of the blocking initialize call inside InitGopls: either Call
returned an error, or it returned a raw result (which may be nil). -/
inductive CallOutcome where
  | failure (msg : String)
  | success (result : RawResult)
deriving DecidableEq, Repr

/-- Whether a message is the initialized notification. -/
def isInitializedNotif : OutMsg → Bool
  | OutMsg.notification m Params.empty => goStrEq m ("initialized")
  | _ => false

/-- InitGopls after the subprocess started (part_000): one blocking call with
method initialize carrying the pid, rootUri file:// plus rootPath, and empty
capabilities; on error it returns at once (no notification, client not
ready); on success it sends the initialized notification and the client
singleton is set only when the result payload is non-nil.  Returns the
messages written in order and whether GoplsInstance was set. -/
def initGopls (pid : Int) (rootPath : String) (outcome : CallOutcome) :
    List OutMsg × Bool :=
  let initReq := OutMsg.request 1 ("initialize")
      (Params.initCall pid (("file://") ++ rootPath) [])
  match outcome with
  | CallOutcome.failure _ => ([initReq], false)
  | CallOutcome.success r =>
      ([initReq, OutMsg.notification ("initialized") Params.empty], r.isSome)

/-- Value of a decimal digit character. -/
def digitVal (c : Char) : Nat := c.toNat - 48

/-- Whether every character is a decimal digit. -/
def allDigits (l : List Char) : Bool := l.all Char.isDigit

/-- Natural value of a digit string, most significant first. -/
def digitsToNat (l : List Char) : Nat :=
  l.foldl (fun acc c => acc * 10 + digitVal c) 0

/-- Parse an optionally signed decimal numeral, the syntax strconv.Atoi
accepts in base 10; none models a syntax error. -/
def parseDecimal : List Char → Option Int
  | [] => none
  | '+' :: ds =>
    if ds.isEmpty || !allDigits ds then none else some (digitsToNat ds)
  | '-' :: ds =>
    if ds.isEmpty || !allDigits ds then none else some (-(digitsToNat ds : Int))
  | ds =>
    if !allDigits ds then none else some (digitsToNat ds)

/-- Whether a string is a decimal numeral strconv.Atoi parses without a
syntax error. -/
def isGoDecimal (s : String) : Bool :=
  (parseDecimal s.data).isSome

/-- Clamp to the signed 64-bit range: strconv.ParseInt returns the clamped
extreme value together with a range error, and ReadLoop ignores the error. -/
def clampInt64 (v : Int) : Int :=
  if v > 9223372036854775807 then 9223372036854775807
  else if v < -9223372036854775808 then -9223372036854775808
  else v

/-- The value ReadLoop obtains from strconv.Atoi on the Content-Length
header: 0 on a syntax error (error ignored), the clamped value otherwise. -/
def goAtoi (s : String) : Int :=
  match parseDecimal s.data with
  | none => 0
  | some v => clampInt64 v

/-- One incoming frame as ReadLoop sees it after a successful header parse:
the Content-Length header value (none when the header block has no such key,
in which case textproto's Get returns the empty string), and how many body
bytes the stream can still deliver before closing. -/
structure Frame where
  contentLength : Option String
  bodyAvail : Nat
deriving DecidableEq, Repr

/-- One event on the subprocess stdout stream: a frame whose headers parse,
or a header-read failure (stream closed or I/O error). -/
inductive StreamEvent where
  | frame (f : Frame)
  | headerErr
deriving DecidableEq, Repr

/-- Why ReadLoop stopped consuming its stream. -/
inductive StopReason where
  | endOfStream
  | headerError
  | bodyReadError
  | negativeLengthPanic
deriving DecidableEq, Repr

/-- ReadLoop (part_000): read a header block; on failure return.  Take the
Content-Length value through strconv.Atoi with the error ignored; a length
of zero (also the result for an absent or malformed header) skips the frame
and continues.  A negative length reaches make with a negative size, which
panics.  Otherwise read exactly length body bytes, returning on a short
read, and dispatch the body.  Yields the dispatched body lengths in order
and the reason the loop stopped. -/
def readLoop : List StreamEvent → List Int × StopReason
  | [] => ([], StopReason.endOfStream)
  | StreamEvent.headerErr :: _ => ([], StopReason.headerError)
  | StreamEvent.frame f :: rest =>
    let lengthStr := f.contentLength.getD ("")
    let length := goAtoi lengthStr
    if length == 0 then readLoop rest
    else if length < 0 then ([], StopReason.negativeLengthPanic)
    else if (f.bodyAvail : Int) < length then ([], StopReason.bodyReadError)
    else
      let r := readLoop rest
      (length :: r.1, r.2)

/-- A workspace/symbol result entry as SymbolSearch decodes it. -/
structure Symbol where
  name : String
  kind : Int
  containerName : String
  uri : String
deriving DecidableEq, Repr

/-- The path SymbolSearch derives from a symbol location: the URI with the
file scheme prefix stripped. -/
def symPath (s : Symbol) : String :=
  goTrimPrefix s.uri ("file://")

/-- Whether SymbolSearch classifies a symbol as a dependency: its path
contains the module-download cache segment. -/
def symIsDep (s : Symbol) : Bool :=
  goContains (symPath s) ("/pkg/mod/")

/-- The scoring block of the SymbolSearch loop (part_000), factored out of
the per-symbol body: base 50, then the exact-match or prefix boost, the
significant-kind boost, the dependency penalty and the dependency-test
penalty, in the order the code applies them. -/
def symbolScore (query : String) (s : Symbol) : Int :=
  let isDep := symIsDep s
  let score0 : Int := 50
  let score1 := if goEqualFold s.name query then score0 + 50
    else if goHasPrefix (goToLower s.name) (goToLower query) then score0 + 20
    else score0
  let score2 := if s.kind == 5 || s.kind == 11 || s.kind == 12 then score1 + 10 else score1
  let score3 := if isDep then score2 - 25 else score2
  if isDep && goHasSuffix (symPath s) ("_test.go") then score3 - 50 else score3

/-- The per-symbol body of the SymbolSearch loop (part_000): substring
filter, noise filter against the goRoot installation, vendor, and cache
paths, dependency classification, scoring, and the final non-positive-score
exclusion; none when the symbol produces no record. -/
def processSymbol (goRoot query : String) (s : Symbol) : Option FileScore :=
  if !goContains (goToLower s.name) (goToLower query) then none
  else if goHasPrefix (symPath s) goRoot || goContains (symPath s) ("/vendor/") ||
      goContains (symPath s) ("/.cache/") then none
  else if symbolScore query s ≤ 0 then none
  else some ⟨symPath s, symbolScore query s, [("gopls:") ++ s.name], symIsDep s⟩

/-- SymbolSearch over a decoded symbol list: the records of the symbols that
survive, in order. -/
def symbolSearchFilter (goRoot query : String) (symbols : List Symbol) : List FileScore :=
  symbols.filterMap (processSymbol goRoot query)

/-- The filter conditions of the claim's spec wording, as the code tests
them: used to phrase the scoring theorem over symbols that pass. -/
def passesFilters (goRoot query : String) (s : Symbol) : Bool :=
  goContains (goToLower s.name) (goToLower query) &&
  !(goHasPrefix (symPath s) goRoot || goContains (symPath s) ("/vendor/") ||
    goContains (symPath s) ("/.cache/"))

/-- The claim's scoring formula, stated as one sum as the spec writes it. -/
def claimedSymbolScore (query : String) (s : Symbol) : Int :=
  50 + (if goEqualFold s.name query then 50
        else if goHasPrefix (goToLower s.name) (goToLower query) then 20 else 0)
     + (if s.kind == 5 || s.kind == 11 || s.kind == 12 then 10 else 0)
     + (if symIsDep s then -25 else 0)
     + (if symIsDep s && goHasSuffix (symPath s) ("_test.go") then -50 else 0)

/-- Which of the two mutex-protected sections of Search runs first: the
local branch's append, or the gopls branch's merge.  Both goroutines are
started concurrently and take the lock in either order. -/
inductive BranchOrder where
  | localFirst
  | remoteFirst
deriving DecidableEq, Repr

/-- The shared result collection of Search after both branches completed,
for a given lock order: the gopls branch merges against whatever the
collection holds when it acquires the lock (the local results if the local
branch won the race, the empty collection otherwise), and a gopls call error
leaves the collection untouched.  The local branch's file enumeration and
scoring are external collaborators; their output list is a parameter. -/
def searchMerged (ord : BranchOrder) (absRoot : String) (localRes : List FileScore)
    (gopls : Option (Except String (List FileScore))) : List FileScore :=
  match gopls with
  | none => localRes
  | some (Except.error _) => localRes
  | some (Except.ok rs) =>
    match ord with
    | BranchOrder.localFirst => mergeGopls absRoot localRes rs
    | BranchOrder.remoteFirst => mergeGopls absRoot [] rs ++ localRes

/-- Boolean test that scores never rise along the list. -/
def nonIncreasingB : List FileScore → Bool
  | [] => true
  | [_] => true
  | a :: b :: rest => decide (b.score ≤ a.score) && nonIncreasingB (b :: rest)

/-- Score order of the final sort: later records never score above earlier
ones. -/
def nonIncreasing (l : List FileScore) : Prop :=
  nonIncreasingB l = true

instance : DecidablePred nonIncreasing := fun l =>
  inferInstanceAs (Decidable (nonIncreasingB l = true))

/-- The contract of the final sort.Slice call: some permutation of the input
that is ordered by descending score.  sort.Slice promises sortedness but not
stability, so the output is related, not computed. -/
def sortSliceRel (inp out : List FileScore) : Prop :=
  inp.Perm out ∧ nonIncreasing out

/-- The observable outcome of Search: for some sorted permutation of the
merged collection, Search returns it truncated to 50 entries, always as a
success (Search has a single return of a nil error). -/
def searchReturns (ord : BranchOrder) (absRoot : String) (localRes : List FileScore)
    (gopls : Option (Except String (List FileScore)))
    (out : Except String (List FileScore)) : Prop :=
  ∃ s, sortSliceRel (searchMerged ord absRoot localRes gopls) s ∧
    out = Except.ok (s.take 50)

/-- Greedy subsequence test, used to state that two records occur in a given
relative order in a list. -/
def isSubseq : List FileScore → List FileScore → Bool
  | [], _ => true
  | _ :: _, [] => false
  | a :: as, b :: bs => if a = b then isSubseq as bs else isSubseq (a :: as) bs

/-- Concrete records used by the counterexamples and witnesses below. -/
def fsA : FileScore := ⟨"a.go", 5, [("A")], false⟩

/-- Second tied record for the sort stability counterexample. -/
def fsB : FileScore := ⟨"b.go", 5, [("B")], false⟩

/-- A local record for the merge race counterexample. -/
def locA : FileScore := ⟨"a.go", 100, [("exact-file")], false⟩

/-- A gopls record for the same absolute path as locA. -/
def remA : FileScore := ⟨"/r/a.go", 50, [("gopls:A")], true⟩

/-- A gopls record on a sibling path sharing the root as a string prefix. -/
def grOutside : FileScore := ⟨"/apple/x.go", 60, [("gopls:X")], true⟩

/-- Character-wise string equality coincides with equality. -/
theorem goStrEq_iff {a b : String} : goStrEq a b = true ↔ a = b := by
  constructor
  · intro h
    cases a; cases b
    simp [goStrEq] at h
    simp [h]
  · intro h; subst h; simp [goStrEq]

/-- A list is a prefix of itself. -/
theorem listPrefix_refl (l : List Char) : listPrefix l l = true := by
  induction l with
  | nil => rfl
  | cons c cs ih => simp [listPrefix, ih]

/-- A prefix of a prefix: dropping a tail keeps the prefix property. -/
theorem listPrefix_of_append {a b l : List Char} (h : listPrefix (a ++ b) l = true) :
    listPrefix a l = true := by
  induction a generalizing l with
  | nil => rfl
  | cons c cs ih =>
    cases l with
    | nil => simp [listPrefix] at h
    | cons d ds =>
      simp [listPrefix] at h ⊢
      exact ⟨h.1, ih h.2⟩

/-- A path below root-slash also has the bare root as a string prefix. -/
theorem goHasPrefix_of_slash {root p : String}
    (h : goHasPrefix p (root ++ String.mk ['/']) = true) :
    goHasPrefix p root = true := by
  unfold goHasPrefix at h ⊢
  exact listPrefix_of_append (a := root.data) (b := ['/']) h

/-- A path equal to the root has the root as a string prefix. -/
theorem goHasPrefix_of_eq {root p : String} (h : p = root) :
    goHasPrefix p root = true := by
  subst h
  exact listPrefix_refl p.data

/-- The spec's falls-inside predicate implies the code's prefix test. -/
theorem goHasPrefix_of_insideRoot {root p : String} (h : insideRoot root p = true) :
    goHasPrefix p root = true := by
  unfold insideRoot at h
  rw [Bool.or_eq_true] at h
  rcases h with h1 | h2
  · exact goHasPrefix_of_eq (goStrEq_iff.mp h1)
  · exact goHasPrefix_of_slash h2

/-- The seq counter after n allocations is n reduced to int64 range. -/
theorem assignedId_closed (n : Nat) : assignedId n = wrap64 (n : Int) := by
  induction n with
  | zero => unfold assignedId wrap64; norm_num
  | succ k ih =>
    show nextSeq (assignedId k) = wrap64 ((k : Int) + 1)
    rw [ih]
    unfold nextSeq wrap64
    omega

/-- Truncation keeps scores non-increasing. -/
theorem nonIncreasingB_take (l : List FileScore) (n : Nat)
    (h : nonIncreasingB l = true) : nonIncreasingB (l.take n) = true := by
  induction l generalizing n with
  | nil => simp [nonIncreasingB]
  | cons a rest ih =>
    cases n with
    | zero => rfl
    | succ m =>
      cases rest with
      | nil => cases m <;> simp [nonIncreasingB]
      | cons b rs =>
        have hb : decide (b.score ≤ a.score) = true ∧ nonIncreasingB (b :: rs) = true := by
          simpa [nonIncreasingB] using h
        cases m with
        | zero => simp [nonIncreasingB]
        | succ m2 =>
          have ht := ih hb.2 (n := m2 + 1)
          simp only [List.take] at ht ⊢
          simp [nonIncreasingB, hb.1, ht]

/-- Support: when the collection already holds exactly one record resolving
to an absolute path A, the merge loop preserves that: every gopls record for
A is dropped as a duplicate and every other surviving record resolves
elsewhere.  The hypothesis on remote records says their paths are clean
absolute paths, so that the root-relative rewrite resolves back to the same
absolute path. -/
theorem mergeGopls_keeps_unique (root A : String) (l : FileScore) :
    ∀ (remote acc : List FileScore),
      (∀ g ∈ remote, existingAbsPath root (rewriteRemote root g) = g.path) →
      acc.filter (fun e => goStrEq (existingAbsPath root e) A) = [l] →
      (mergeGopls root acc remote).filter (fun e => goStrEq (existingAbsPath root e) A) = [l] := by
  intro remote
  induction remote with
  | nil =>
    intro acc _ hacc
    simpa [mergeGopls] using hacc
  | cons g rest ih =>
    intro acc hc hacc
    by_cases hd : acc.any (fun ex => goStrEq (existingAbsPath root ex) g.path) = true
    · rw [show mergeGopls root acc (g :: rest) = mergeGopls root acc rest by
        simp [mergeGopls, hd]]
      exact ih acc (fun x hx => hc x (List.mem_cons_of_mem _ hx)) hacc
    · have hd' : acc.any (fun ex => goStrEq (existingAbsPath root ex) g.path) = false := by
        simpa using hd
      rw [show mergeGopls root acc (g :: rest) =
          mergeGopls root (acc ++ [rewriteRemote root g]) rest by
        simp [mergeGopls, hd']]
      have hl_mem : l ∈ acc ∧ goStrEq (existingAbsPath root l) A = true := by
        have hm : l ∈ acc.filter (fun e => goStrEq (existingAbsPath root e) A) := by
          rw [hacc]; exact List.mem_singleton.mpr rfl
        simpa using List.mem_filter.mp hm
      have hgA : g.path ≠ A := by
        intro he
        have : acc.any (fun ex => goStrEq (existingAbsPath root ex) g.path) = true :=
          List.any_eq_true.mpr ⟨l, hl_mem.1, by rw [he]; exact hl_mem.2⟩
        rw [this] at hd'
        exact Bool.true_eq_false.mp hd'
      have hrw : goStrEq (existingAbsPath root (rewriteRemote root g)) A = false := by
        rw [hc g (List.mem_cons_self g rest)]
        cases hq : goStrEq g.path A
        · rfl
        · exact absurd (goStrEq_iff.mp hq) hgA
      apply ih
      · exact fun x hx => hc x (List.mem_cons_of_mem _ hx)
      · simp [List.filter_append, hacc, hrw]

/-- C1: a Call whose response never arrives fails with the timeout error at
the fixed five-second deadline; afterwards the pending registry holds no
entry for the allocated id, and a response for that id arriving later is
dropped by handleMessage: nothing is resolved and the registry is left
unchanged. -/
theorem call_timeout_evicts_and_drops (seq : Int) (p : PendingMap) (r : RawResult) :
    callTimeoutSeconds = 5 ∧
    (callNoResponse seq p).2.2 = Except.error ("timeout waiting for gopls response") ∧
    (callNoResponse seq p).2.1 (callNoResponse seq p).1 = false ∧
    handleMessage (callNoResponse seq p).2.1 (some ((callNoResponse seq p).1, r)) =
      ((callNoResponse seq p).2.1, none) := by
  refine ⟨rfl, rfl, ?_, ?_⟩
  · simp [callNoResponse, evictPending]
  · simp [handleMessage, callNoResponse, evictPending]

/-- C2: the merge races the local branch.  With local record locA (path
a.go, score 100) and gopls record remA (path /r/a.go) under root /r, the
lock order decides the result: if the local branch appends first, the merge
deduplicates and exactly the local record for that absolute path remains;
if the gopls branch merges first, its record survives, is rewritten to the
same relative path, and the final collection carries two records resolving
to /r/a.go, the remote-scored one first. -/
theorem merge_race_duplicate_entries :
    searchMerged BranchOrder.localFirst ("/r") [locA] (some (Except.ok [remA])) = [locA] ∧
    searchMerged BranchOrder.remoteFirst ("/r") [locA] (some (Except.ok [remA])) =
      [⟨"a.go", 50, [("gopls:A")], false⟩, locA] ∧
    ((searchMerged BranchOrder.remoteFirst ("/r") [locA] (some (Except.ok [remA]))).filter
      (fun e => goStrEq (existingAbsPath ("/r") e) ("/r/a.go"))).length = 2 := by
  refine ⟨by decide, by decide, by decide⟩

/-- C6 counterexample: the path /apple/x.go does not fall inside the search
root /app, yet the merge reclassifies the record as non-dependency and
rewrites its path (to ../apple/x.go), because the code tests only that the
root is a string prefix of the path. -/
theorem merge_rewrites_sibling_path :
    insideRoot ("/app") ("/apple/x.go") = false ∧
    mergeGopls ("/app") [] [grOutside] = [⟨"../apple/x.go", 60, [("gopls:X")], false⟩] := by
  refine ⟨by decide, by decide⟩

/-- C6 amended: a surviving gopls record is inserted after the rewrite,
and the rewrite fires exactly when the search root is a string prefix of the
record's absolute path (which also captures sibling paths such as /apple
under root /app): then the path is rewritten relative to the root and the
dependency flag cleared; otherwise the record is inserted unchanged. -/
theorem merge_inserts_rewritten_iff_prefix (root : String) (acc : List FileScore)
    (g : FileScore) (rest : List FileScore)
    (h : acc.any (fun ex => goStrEq (existingAbsPath root ex) g.path) = false) :
    mergeGopls root acc (g :: rest) = mergeGopls root (acc ++ [rewriteRemote root g]) rest ∧
    (goHasPrefix g.path root = true →
      rewriteRemote root g = { g with path := goRel root g.path, isDep := false }) ∧
    (goHasPrefix g.path root = false → rewriteRemote root g = g) := by
  refine ⟨by simp [mergeGopls, h], ?_, ?_⟩
  · intro hp; simp [rewriteRemote, hp]
  · intro hp; simp [rewriteRemote, hp]

/-- C6 amended witness: at the concrete sibling path, the surviving record
is inserted rewritten. -/
theorem merge_inserts_rewritten_witness :
    mergeGopls ("/app") [] [grOutside] = mergeGopls ("/app") [rewriteRemote ("/app") grOutside] [] ∧
    rewriteRemote ("/app") grOutside =
      { grOutside with path := goRel ("/app") grOutside.path, isDep := false } := by
  have h := merge_inserts_rewritten_iff_prefix ("/app") [] grOutside [] (by decide)
  exact ⟨by simpa using h.1, h.2.1 (by decide)⟩

/-- C3 counterexample: with two tied local records (fsA before fsB, equal
scores) Search may return them in the opposite order: the swapped sequence
is a sorted permutation of the merged collection, so the sort.Slice contract
admits it, yet the records do not keep their pre-sort relative order. -/
theorem search_sort_unstable_output :
    searchReturns BranchOrder.localFirst ("/r") [fsA, fsB] none (Except.ok [fsB, fsA]) ∧
    fsA.score = fsB.score ∧
    isSubseq [fsA, fsB] [fsA, fsB] = true ∧
    isSubseq [fsA, fsB] [fsB, fsA] = false := by
  exact ⟨⟨[fsB, fsA], ⟨by decide, by decide⟩, rfl⟩, by decide, by decide, by decide⟩

/-- C3 amended: every sequence Search returns is some sorted permutation of
the merged collection truncated to 50 entries, so scores are non-increasing
and at most 50 records are returned; the sort is sort.Slice, which does not
promise stability, so equal-score records need not keep their pre-sort
order. -/
theorem search_sorted_and_truncated (ord : BranchOrder) (root : String)
    (localRes : List FileScore) (g : Option (Except String (List FileScore)))
    (l : List FileScore)
    (h : searchReturns ord root localRes g (Except.ok l)) :
    nonIncreasing l ∧ l.length ≤ 50 ∧
    ∃ s, sortSliceRel (searchMerged ord root localRes g) s ∧ l = s.take 50 := by
  obtain ⟨s, hs, hout⟩ := h
  have hl : l = s.take 50 := by
    injection hout
  subst hl
  refine ⟨nonIncreasingB_take s 50 hs.2, ?_, ⟨s, hs, rfl⟩⟩
  rw [List.length_take]
  exact min_le_left _ _

/-- C3 amended witness at a one-record search. -/
theorem search_sorted_and_truncated_witness :
    nonIncreasing [fsA] ∧ ([fsA] : List FileScore).length ≤ 50 ∧
    ∃ s, sortSliceRel (searchMerged BranchOrder.localFirst ("/r") [fsA] none) s ∧
      [fsA] = s.take 50 :=
  search_sorted_and_truncated BranchOrder.localFirst ("/r") [fsA] none [fsA]
    ⟨[fsA], ⟨by decide, by decide⟩, rfl⟩

/-- Support: the sequentially accumulated score of the code equals the one
flat sum the claim states. -/
theorem symbolScore_eq_claimed (query : String) (s : Symbol) :
    symbolScore query s = claimedSymbolScore query s := by
  unfold symbolScore claimedSymbolScore
  rcases hf : goEqualFold s.name query with _ | _ <;>
    rcases hp : goHasPrefix (goToLower s.name) (goToLower query) with _ | _ <;>
    rcases hk : (s.kind == 5 || s.kind == 11 || s.kind == 12) with _ | _ <;>
    rcases hd : symIsDep s with _ | _ <;>
    rcases ht : goHasSuffix (symPath s) ("_test.go") with _ | _ <;>
    simp [hf, hp, hk, hd, ht]

/-- C4: a symbol that passes the substring and noise filters is scored
exactly as claimed: base 50, plus 50 for a case-insensitive exact match,
else plus 20 for a lower-cased prefix match, plus 10 for kinds 5, 11 and 12,
minus 25 for a dependency, and a further minus 50 for a dependency test
file; a non-positive final score excludes the record, otherwise the record
carries the derived path, the score, the gopls reason tag and the dependency
flag. -/
theorem symbolSearch_scoring (goRoot query : String) (s : Symbol)
    (h : passesFilters goRoot query s = true) :
    processSymbol goRoot query s =
      if claimedSymbolScore query s ≤ 0 then none
      else some ⟨symPath s, claimedSymbolScore query s, [("gopls:") ++ s.name], symIsDep s⟩ := by
  unfold passesFilters at h
  rw [Bool.and_eq_true] at h
  obtain ⟨h1, h2⟩ := h
  rw [Bool.not_eq_true'] at h2
  unfold processSymbol
  rw [h1, h2, symbolScore_eq_claimed]
  simp

/-- C4 witness: an exact-match function symbol in the module cache passes
the filters and scores 85. -/
theorem symbolSearch_scoring_witness :
    processSymbol ("/usr/local/go") ("unmarshal")
        ⟨"Unmarshal", 11, "json", "file:///home/u/go/pkg/mod/foo/bar.go"⟩ =
      if claimedSymbolScore ("unmarshal")
          ⟨"Unmarshal", 11, "json", "file:///home/u/go/pkg/mod/foo/bar.go"⟩ ≤ 0 then none
      else some ⟨symPath ⟨"Unmarshal", 11, "json", "file:///home/u/go/pkg/mod/foo/bar.go"⟩,
        claimedSymbolScore ("unmarshal")
          ⟨"Unmarshal", 11, "json", "file:///home/u/go/pkg/mod/foo/bar.go"⟩,
        [("gopls:") ++ "Unmarshal"],
        symIsDep ⟨"Unmarshal", 11, "json", "file:///home/u/go/pkg/mod/foo/bar.go"⟩⟩ :=
  symbolSearch_scoring ("/usr/local/go") ("unmarshal")
    ⟨"Unmarshal", 11, "json", "file:///home/u/go/pkg/mod/foo/bar.go"⟩ (by decide)

/-- C5: a symbol yields a record only when the query is a case-insensitive
contiguous substring of its name, and then the record's path is the location
URI with the file scheme stripped and its dependency flag holds exactly when
that path contains the module cache segment; any symbol whose derived path
falls under the goRoot installation, or contains a vendor or cache segment,
is dropped. -/
theorem symbolSearch_filters (goRoot query : String) (s : Symbol) :
    (∀ r, processSymbol goRoot query s = some r →
      goContains (goToLower s.name) (goToLower query) = true ∧
      r.path = symPath s ∧ r.isDep = goContains (symPath s) ("/pkg/mod/")) ∧
    (insideRoot goRoot (symPath s) = true ∨ goContains (symPath s) ("/vendor/") = true ∨
        goContains (symPath s) ("/.cache/") = true →
      processSymbol goRoot query s = none) := by
  constructor
  · intro r hr
    unfold processSymbol at hr
    rcases h1 : goContains (goToLower s.name) (goToLower query) with _ | _
    · rw [h1] at hr
      simp at hr
    · rw [h1] at hr
      simp only [Bool.not_true, Bool.false_eq_true, if_false] at hr
      split at hr
      · exact absurd hr (by simp)
      · split at hr
        · exact absurd hr (by simp)
        · injection hr with hr2
          subst hr2
          exact ⟨rfl, rfl, rfl⟩
  · intro h
    have h2 : (goHasPrefix (symPath s) goRoot || goContains (symPath s) ("/vendor/") ||
        goContains (symPath s) ("/.cache/")) = true := by
      rcases h with h | h | h
      · simp [goHasPrefix_of_insideRoot h]
      · simp [h]
      · simp [h]
    unfold processSymbol
    rw [h2]
    split <;> simp

/-- C5 witness: a matching name gives a record with the stripped path and
the dependency flag, and a vendored path is dropped. -/
theorem symbolSearch_filters_witness :
    (goContains (goToLower ("Unmarshal")) (goToLower ("unmarshal")) = true ∧
      ("/home/u/go/pkg/mod/foo/bar.go" : String) =
        symPath ⟨"Unmarshal", 11, "json", "file:///home/u/go/pkg/mod/foo/bar.go"⟩ ∧
      (true : Bool) = goContains
        (symPath ⟨"Unmarshal", 11, "json", "file:///home/u/go/pkg/mod/foo/bar.go"⟩)
        ("/pkg/mod/")) ∧
    processSymbol ("/usr/local/go") ("helper") ⟨"InternalHelper", 11, "x", "file:///w/vendor/lib/a.go"⟩ = none := by
  constructor
  · have h := (symbolSearch_filters ("/usr/local/go") ("unmarshal")
      ⟨"Unmarshal", 11, "json", "file:///home/u/go/pkg/mod/foo/bar.go"⟩).1
      ⟨"/home/u/go/pkg/mod/foo/bar.go", 85, [("gopls:Unmarshal")], true⟩ (by decide)
    exact h
  · exact (symbolSearch_filters ("/usr/local/go") ("helper")
      ⟨"InternalHelper", 11, "x", "file:///w/vendor/lib/a.go"⟩).2 (Or.inr (Or.inl (by decide)))

/-- C7 counterexample: the id counter is a 64-bit integer, so the sequence
of assigned identifiers is not strictly increasing and 0 is not unassigned
forever: the allocation after 2 to the 63 minus 1 calls yields a smaller
(negative) id, and the 2-to-the-64-th call is handed id 0. -/
theorem nextID_wraparound :
    assignedId 18446744073709551616 = 0 ∧
    assignedId 9223372036854775808 < assignedId 9223372036854775807 := by
  constructor
  · rw [assignedId_closed]
    unfold wrap64
    norm_num
  · rw [assignedId_closed, assignedId_closed]
    unfold wrap64
    norm_num

/-- C7 amended: as long as fewer than 2 to the 63 identifiers have been
allocated, the assigned identifiers are strictly increasing and at least 1,
so id 0 (the dispatcher's not-a-response mark) is never assigned before the
int64 counter wraps. -/
theorem nextID_increasing_before_wrap (m n : Nat) (hm : 1 ≤ m) (hmn : m < n)
    (hn : n < 9223372036854775808) :
    1 ≤ assignedId m ∧ assignedId m < assignedId n := by
  have hsm : assignedId m = (m : Int) := by
    rw [assignedId_closed]; unfold wrap64; omega
  have hsn : assignedId n = (n : Int) := by
    rw [assignedId_closed]; unfold wrap64; omega
  rw [hsm, hsn]
  omega

/-- C7 amended witness: the first two allocations give ids 1 and 2. -/
theorem nextID_increasing_witness :
    1 ≤ assignedId 1 ∧ assignedId 1 < assignedId 2 :=
  nextID_increasing_before_wrap 1 2 (by norm_num) (by norm_num) (by norm_num)

/-- C8 counterexample: when the initialize call fails, InitGopls returns
at once: the only message written is the initialize request and no
initialized notification is ever sent, contradicting the claim that the
notification is sent whether or not the call succeeded; the client is also
not ready. -/
theorem init_notification_skipped_on_failure :
    initGopls 7 ("/proj") (CallOutcome.failure ("boom")) =
      ([OutMsg.request 1 ("initialize") (Params.initCall 7 ("file:///proj") [])], false) ∧
    (initGopls 7 ("/proj") (CallOutcome.failure ("boom"))).1.all
      (fun m => !isInitializedNotif m) = true := by
  exact ⟨by decide, by decide⟩

/-- C8 amended: InitGopls first sends the blocking initialize request with
the process identity, rootUri file:// plus the root path and empty
capabilities; the initialized notification with empty parameters follows
exactly when that call returned without error (whatever the result
payload), and the client singleton becomes ready only when the call
succeeded and its result is non-nil. -/
theorem init_handshake_sequence (pid : Int) (rootPath msg : String) (r : RawResult) :
    initGopls pid rootPath (CallOutcome.failure msg) =
      ([OutMsg.request 1 ("initialize") (Params.initCall pid (("file://") ++ rootPath) [])],
        false) ∧
    initGopls pid rootPath (CallOutcome.success r) =
      ([OutMsg.request 1 ("initialize") (Params.initCall pid (("file://") ++ rootPath) []),
        OutMsg.notification ("initialized") Params.empty], r.isSome) := by
  exact ⟨rfl, rfl⟩

/-- C9: Search never surfaces an error: every outcome it can return is a
success; a gopls branch failure, like an absent gopls, leaves exactly the
local results to be sorted; and with nothing from either branch the empty
list is still returned as a success. -/
theorem search_never_errors :
    (∀ ord root localRes g out, searchReturns ord root localRes g out →
      ∃ l, out = Except.ok l) ∧
    (∀ ord root localRes msg,
      searchMerged ord root localRes (some (Except.error msg)) = localRes ∧
      searchMerged ord root localRes none = localRes) ∧
    (∀ ord root, searchReturns ord root [] none (Except.ok [])) := by
  refine ⟨?_, ?_, ?_⟩
  · rintro ord root localRes g out ⟨s, _, hout⟩
    exact ⟨s.take 50, hout⟩
  · intro ord root localRes msg
    cases ord <;> exact ⟨rfl, rfl⟩
  · intro ord root
    exact ⟨[], ⟨List.Perm.refl _, rfl⟩, rfl⟩

/-- C9 witness: the empty search outcome really is a success outcome. -/
theorem search_never_errors_witness :
    ∃ l, (Except.ok [] : Except String (List FileScore)) = Except.ok l :=
  search_never_errors.1 BranchOrder.localFirst ("/r") [] none (Except.ok [])
    (search_never_errors.2.2 BranchOrder.localFirst ("/r"))

/-- Support: a string strconv.Atoi rejects yields value 0. -/
theorem goAtoi_eq_zero_of_not_decimal (v : String) (h : isGoDecimal v = false) :
    goAtoi v = 0 := by
  unfold isGoDecimal at h
  unfold goAtoi
  cases hp : parseDecimal v.data with
  | none => rfl
  | some x => rw [hp] at h; simp at h

/-- C10 counterexample: a frame declaring Content-Length -5 parses as the
decimal value -5, which is neither skipped nor read: it reaches make with a
negative size and panics, so the loop stops without any header or body I/O
failure and the remaining well-formed frames are never consumed. -/
theorem readLoop_negative_length_stops :
    isGoDecimal ("-5") = true ∧
    readLoop [StreamEvent.frame ⟨some ("-5"), 1000⟩, StreamEvent.frame ⟨some ("3"), 1000⟩] =
      ([], StopReason.negativeLengthPanic) := by
  exact ⟨by decide, by decide⟩

/-- C10 amended: a frame whose Content-Length value is absent or not a
decimal numeral is treated as length zero and skipped, the loop continuing
with the rest of the stream (an explicit zero length likewise); a positive
length within the available bytes dispatches the body and continues; the
loop stops on a header read failure or a short body read - and, panicking,
on a negative declared length. -/
theorem readLoop_frame_handling (f : Frame) (v : String) (rest : List StreamEvent) :
    (f.contentLength = none → readLoop (StreamEvent.frame f :: rest) = readLoop rest) ∧
    (f.contentLength = some v → isGoDecimal v = false →
      readLoop (StreamEvent.frame f :: rest) = readLoop rest) ∧
    (f.contentLength = some v → goAtoi v = 0 →
      readLoop (StreamEvent.frame f :: rest) = readLoop rest) ∧
    (f.contentLength = some v → 0 < goAtoi v → goAtoi v ≤ (f.bodyAvail : Int) →
      readLoop (StreamEvent.frame f :: rest) =
        (goAtoi v :: (readLoop rest).1, (readLoop rest).2)) ∧
    (readLoop (StreamEvent.headerErr :: rest) = ([], StopReason.headerError)) ∧
    (f.contentLength = some v → goAtoi v < 0 →
      readLoop (StreamEvent.frame f :: rest) = ([], StopReason.negativeLengthPanic)) ∧
    (f.contentLength = some v → 0 < goAtoi v → (f.bodyAvail : Int) < goAtoi v →
      readLoop (StreamEvent.frame f :: rest) = ([], StopReason.bodyReadError)) := by
  refine ⟨?_, ?_, ?_, ?_, rfl, ?_, ?_⟩
  · intro h
    simp [readLoop, h, goAtoi, parseDecimal]
  · intro h hd
    have h0 := goAtoi_eq_zero_of_not_decimal v hd
    simp [readLoop, h, h0]
  · intro h h0
    simp [readLoop, h, h0]
  · intro h hpos hle
    have h1 : (goAtoi v == 0) = false := by
      rw [beq_eq_false_iff_ne]; omega
    have h2 : ¬ goAtoi v < 0 := by omega
    have h3 : ¬ ((f.bodyAvail : Int) < goAtoi v) := by omega
    simp [readLoop, h, h1, h2, h3]
  · intro h hneg
    have h1 : (goAtoi v == 0) = false := by
      rw [beq_eq_false_iff_ne]; omega
    simp [readLoop, h, h1, hneg]
  · intro h hpos hlt
    have h1 : (goAtoi v == 0) = false := by
      rw [beq_eq_false_iff_ne]; omega
    have h2 : ¬ goAtoi v < 0 := by omega
    simp [readLoop, h, h1, h2, hlt]

/-- C10 amended witness: a malformed length is skipped, and a well-formed
one dispatches a body of that length. -/
theorem readLoop_frame_handling_witness :
    readLoop [StreamEvent.frame ⟨some ("abc"), 9⟩] = readLoop [] ∧
    readLoop [StreamEvent.frame ⟨some ("3"), 9⟩] =
      (3 :: (readLoop []).1, (readLoop []).2) := by
  have h1 := readLoop_frame_handling ⟨some ("abc"), 9⟩ ("abc") []
  have h2 := readLoop_frame_handling ⟨some ("3"), 9⟩ ("3") []
  exact ⟨h1.2.1 rfl (by decide), by
    have := h2.2.2.2.1 rfl (by decide) (by decide)
    simpa using this⟩

end CodeMCP
